import Mathlib

/-!
Verification of the rendezvous-skeleton repository (`rendezvous.go`).

The Go source is shallowly embedded below: each `def` mirrors one Go
function.  64-bit machine arithmetic is modelled with `Nat` and explicit
`% 2 ^ 64`; Go's fallible slice indexing is modelled with an explicit
`GoResult` type whose `panic` constructor stands for a runtime panic.
-/

set_option maxHeartbeats 1000000

namespace Rendezvous

/-- One 64-bit FNV-1 step, as performed per byte by `hash/fnv.New64`'s
`Write`: multiply the running state by the FNV prime modulo `2 ^ 64`,
then xor in the next byte. -/
def fnvStep (h b : Nat) : Nat := (h * 1099511628211 % (2 ^ 64)) ^^^ b

/-- Feeding a byte sequence into the running 64-bit FNV-1 state
(`Hash64.Write`). -/
def hashWrite (h : Nat) (bs : List Nat) : Nat := bs.foldl fnvStep h

/-- The bytes of a string.  All identifiers and labels in this
development are ASCII, where the UTF-8 bytes coincide with the code
points. -/
def strBytes (s : String) : List Nat := s.data.map Char.toNat

/-- The FNV-1 64 offset basis: the hash state right after `Reset`. -/
def fnvOffset : Nat := 14695981039346656037

/-- `func (sr *SkeletonRendezvous) hash(target, key string) uint64`:
reset the state, write the bytes of `target`, then the bytes of `key`,
and return the 64-bit digest.  The default `fnv.New64` primitive is
FNV-1. -/
def goHash (target key : String) : Nat :=
  hashWrite (hashWrite fnvOffset (strBytes target)) (strBytes key)

/-- The configuration record (`Options`).  The hash primitive is fixed
to the default `fnv.New64`; the three integer knobs are modelled as
`Nat` (the claims only exercise non-negative configurations). -/
structure Options where
  fanOut : Nat
  clusterSize : Nat
  minClusterSize : Nat
deriving DecidableEq, Repr

/-- `GetDefaultOptions()`: fan-out 3, FNV-1 64 hash, cluster size 2,
minimum cluster size 2. -/
def defaultOptions : Options :=
  { fanOut := 3, clusterSize := 2, minClusterSize := 2 }

/-- The `SkeletonRendezvous` state: options, cluster table, node
registry and virtual-node (tree depth) count. -/
structure SR where
  options : Options
  Clusters : List (List String)
  Nodes : List String
  VirtualNodes : Nat
deriving DecidableEq, Repr

/-- `NewSkeletonRendezvous` with the given options: empty cluster
table, empty registry, zero depth. -/
def newSkeleton (opts : Options) : SR :=
  { options := opts, Clusters := [], Nodes := [], VirtualNodes := 0 }

/-- The deduplication loop at the top of `generateCluster`: keep the
first occurrence of each identifier (`lookup` map plus append). -/
def dedupAux (seen : List String) : List String → List String
  | [] => []
  | n :: ns => if n ∈ seen then dedupAux seen ns else n :: dedupAux (n :: seen) ns

/-- Bounded search for the least `k ≥ start` with `n ≤ b ^ k`; the fuel
makes the recursion structural so that concrete values reduce in the
kernel. -/
def ceilLogAux (b n : Nat) : Nat → Nat → Nat
  | 0, k => k
  | fuel + 1, k => if n ≤ b ^ k then k else ceilLogAux b n fuel (k + 1)

/-- `countVirtualNodes(clusterAmount, fanOut)` =
`int(math.Ceil(math.Log(clusterAmount) / math.Log(fanOut)))`: the
ceiling base-`fanOut` logarithm of `clusterAmount`, i.e. the least `k`
with `clusterAmount ≤ fanOut ^ k` (fuel `clusterAmount` suffices since
`n ≤ 2 ^ n ≤ fanOut ^ n`).  For `clusterAmount ≤ 1` the Go expression
is `0`; for `clusterAmount = 0` or `fanOut ≤ 1` the Go float-to-int
conversion is unspecified, and the model uses `0`, which is
observationally equal for `FindNode`, whose loop does not run either
way. -/
def countVirtualNodes (clusterAmount fanOut : Nat) : Nat :=
  if clusterAmount ≤ 1 ∨ fanOut ≤ 1 then 0
  else ceilLogAux fanOut clusterAmount clusterAmount 0

/-- The fill loop of `generateCluster`: append each node to the cluster
at `clusterIndex` and advance the index once that cluster has reached
`clusterSize` members.  `List.set`/`List.getD` are the slice update and
read; Go would panic on an out-of-range `clusterIndex`, which the fill
loop never produces from the states this file reasons about. -/
def fillNodes (cs : Nat) (cls : List (List String)) (idx : Nat) : List String → List (List String)
  | [] => cls
  | n :: ns =>
    let c := cls.getD idx [] ++ [n]
    fillNodes cs (cls.set idx c) (if cs ≤ c.length then idx + 1 else idx) ns

/-- The spread loop of `generateCluster`, which is verbatim the spec's
round-robin redistribution sentence: append each member of the dropped
trailing cluster to the cluster at the rotating index, starting at
cluster 0, wrapping modulo `amount`. -/
def roundRobinInto (amount : Nat) (cls : List (List String)) (idx : Nat) :
    List String → List (List String)
  | [] => cls
  | n :: ns =>
    roundRobinInto amount (cls.set idx (cls.getD idx [] ++ [n])) ((idx + 1) % amount) ns

/-- The cluster-table portion of `generateCluster`: append
`ceil(rawLen / cs)` fresh empty clusters to the existing table
(`(n + cs - 1) / cs` is `int(math.Ceil(float64(n) / float64(cs)))`,
with `rawLen` the length of the raw, pre-deduplication input), fill
the deduplicated nodes in, and drop and redistribute an undersized
trailing cluster.  Returns the new table and the final
`clusterAmount`. -/
def buildClusters (cs minSize : Nat) (oldClusters : List (List String))
    (rawLen : Nat) (newNodes : List String) : List (List String) × Nat :=
  let clusterAmount := (rawLen + cs - 1) / cs
  let cls1 := fillNodes cs (oldClusters ++ List.replicate clusterAmount []) 0 newNodes
  if 1 < clusterAmount then
    let lastCluster := cls1.getLast?.getD []
    if lastCluster.length < minSize then
      (roundRobinInto (clusterAmount - 1) cls1.dropLast 0 lastCluster, clusterAmount - 1)
    else (cls1, clusterAmount)
  else (cls1, clusterAmount)

/-- `generateCluster(nodes)`: deduplicate the input, append it to the
registry, rebuild the cluster table via `buildClusters`, and recompute
the depth from the final cluster amount. -/
def generateCluster (sr : SR) (nodes : List String) : SR :=
  let result := buildClusters sr.options.clusterSize sr.options.minClusterSize
    sr.Clusters nodes.length (dedupAux [] nodes)
  { sr with
      Nodes := sr.Nodes ++ dedupAux [] nodes
      Clusters := result.1
      VirtualNodes := countVirtualNodes result.2 sr.options.fanOut }

/-- `SetNodes(nodes)`: delegate to `generateCluster`. -/
def SetNodes (sr : SR) (nodes : List String) : SR := generateCluster sr nodes

/-- `RemoveNodes(removedNodes)`: filter the removed identifiers out of
a copy of the registry, reset the cluster table, and regenerate. -/
def RemoveNodes (sr : SR) (removedNodes : List String) : SR :=
  let newNodes := sr.Nodes.filter (fun n => !removedNodes.contains n)
  generateCluster { sr with Clusters := [] } newNodes

/-- The strict-maximum accumulation loop shared (verbatim, up to the
scored collection) by the per-level branch choice in `FindNode` and by
`findHighestRandomWeight`: starting from a zero score and a zero-value
selection, replace the accumulator whenever a strictly greater score
appears. -/
def selectFold {α β : Type} (score : α → Nat) (pick : α → β) :
    List α → Nat × β → Nat × β
  | [], acc => acc
  | x :: xs, acc =>
    selectFold score pick xs (if acc.1 < score x then (score x, pick x) else acc)

/-- The inner loop of `FindNode` at level `i`: scan digits
`j = 0, …, fanOut-1`, hashing `strconv.Itoa(i) + strconv.Itoa(j)`
against the key, and keep the digit string of the strictly highest
score (initial accumulator `(0, "")`). -/
def levelFold (fanOut : Nat) (i : Nat) (key : String) : Nat × String :=
  selectFold (fun j => goHash (toString i ++ toString j) key) (fun j => toString j)
    (List.range fanOut) (0, "")

/-- The outer loop of `FindNode`: concatenate the winning digit string
of every level `i = 0, …, VirtualNodes-1`. -/
def buildBranch (sr : SR) (key : String) : String :=
  (List.range sr.VirtualNodes).foldl
    (fun b i => b ++ (levelFold sr.options.fanOut i key).2) ""

/-- Outcome of a Go computation: a value, a returned `error`, or a
runtime panic (out-of-range slice index). -/
inductive GoResult (α : Type) where
  | ok (val : α)
  | err
  | panic
deriving DecidableEq, Repr

/-- `strconv.Atoi` on a single character: its digit value, or an error
for a non-digit. -/
def charDigit (c : Char) : Option Nat :=
  if '0' ≤ c ∧ c ≤ '9' then some (c.toNat - 48) else none

/-- Go slice indexing `cls[i]` with a possibly negative or too-large
index: a value when `0 ≤ i < len`, a panic otherwise. -/
def goIndex (cls : List (List String)) (i : Int) : GoResult (List String) :=
  if 0 ≤ i ∧ i < (cls.length : Int) then .ok (cls.getD i.toNat []) else .panic

/-- The multi-character loop of `selectClusterNodes`: accumulate
`fanOut ^ branchSize * digit` over the characters, `branchSize`
starting at `len - 1` and decreasing (`int(math.Pow(...))` is exact
here and modelled as `Nat` power; the ignored `Atoi` error yields digit
`0`). -/
def branchValue (fanOut : Nat) (ds : List Char) : Nat :=
  (ds.foldl
    (fun (acc : Nat × Nat) c =>
      (acc.1 + fanOut ^ acc.2 * ((charDigit c).getD 0), acc.2 - 1))
    (0, ds.length - 1)).1

/-- The body of `selectClusterNodes` over the branch's character list:
a single-character branch is parsed with `Atoi` and folded by `- 1`
when it exceeds the last table index; otherwise the branch is evaluated
as a base-`fanOut` numeral and folded by `- len(Clusters) - 1` when it
exceeds the last table index.  All comparisons and index arithmetic are
over `Int`, exactly as Go's `int` arithmetic behaves here. -/
def selectClusterNodesAux (sr : SR) : List Char → GoResult (List String)
  | [c] =>
    match charDigit c with
    | none => .err
    | some v =>
      if ((sr.Clusters.length : Int) - 1 < (v : Int)) then
        goIndex sr.Clusters ((v : Int) - 1)
      else goIndex sr.Clusters (v : Int)
  | ds =>
    let idx := branchValue sr.options.fanOut ds
    if ((sr.Clusters.length : Int) - 1 < (idx : Int)) then
      goIndex sr.Clusters ((idx : Int) - (sr.Clusters.length : Int) - 1)
    else goIndex sr.Clusters (idx : Int)

/-- `selectClusterNodes(branch)`: dispatch on the branch characters. -/
def selectClusterNodes (sr : SR) (branch : String) : GoResult (List String) :=
  selectClusterNodesAux sr branch.data

/-- `findHighestRandomWeight(key, nodes)`: classic HRW over the member
list, strict-greater update from a zero accumulator, returning the
empty string when no member scores above zero (in particular on an
empty list). -/
def findHighestRandomWeight (key : String) (nodes : List String) : String :=
  (selectFold (fun node => goHash node key) (fun node => node) nodes (0, "")).2

/-- `FindNode(key)`: build the branch numeral, resolve it to a cluster
(propagating a panic; a returned `error` makes `FindNode` return `""`),
then run intra-cluster HRW. -/
def FindNode (sr : SR) (key : String) : GoResult String :=
  match selectClusterNodes sr (buildBranch sr key) with
  | .panic => .panic
  | .err => .ok ""
  | .ok nodes => .ok (findHighestRandomWeight key nodes)

/-- Concatenation of a list of strings, in order (used to state that
the branch numeral is the in-order concatenation of the per-level
winning digit strings). -/
def strConcat (l : List String) : String := l.foldl (fun a b => a ++ b) ""

/-- Proof device for the fill loop: the same filling viewed locally on
the suffix of the cluster table starting at the write index. -/
def fillAux (cs : Nat) : List (List String) → List String → List (List String)
  | cls, [] => cls
  | [], _ :: _ => []
  | c :: rest, n :: ns =>
    if cs ≤ (c ++ [n]).length then (c ++ [n]) :: fillAux cs rest ns
    else fillAux cs ((c ++ [n]) :: rest) ns

/-- Contiguous chunks of size `cs` (the spec's partition into chunks of
the configured cluster size, in order); meaningful for `1 ≤ cs`. -/
def chunksOf (cs : Nat) : List String → List (List String)
  | [] => []
  | n :: ns => (n :: ns.take (cs - 1)) :: chunksOf cs (ns.drop (cs - 1))
  termination_by l => l.length
  decreasing_by simp [List.length_drop]; omega

/-- Modelled from the spec's partitioning sentence, for comparison with
`generateCluster`: partition the node sequence into contiguous chunks
of the cluster size (chunk count `ceil(n / cs)`); if there is more than
one chunk and the last is below the minimum cluster size, discard it
and redistribute its members round-robin over the remaining chunks
starting at chunk 0. -/
def specPartition (cs minSize : Nat) (nodes : List String) : List (List String) :=
  let chunks := chunksOf cs nodes
  if 1 < chunks.length ∧ (chunks.getLast?.getD []).length < minSize then
    roundRobinInto (chunks.length - 1) chunks.dropLast 0 (chunks.getLast?.getD [])
  else chunks

/-! ### Helper lemmas -/

theorem mem_dedupAux {a : String} : ∀ {seen ns : List String},
    a ∈ dedupAux seen ns → a ∈ ns ∧ a ∉ seen := by
  intro seen ns
  induction ns generalizing seen with
  | nil => intro h; simp [dedupAux] at h
  | cons n ns ih =>
    intro h
    by_cases hn : n ∈ seen
    · simp only [dedupAux, if_pos hn] at h
      obtain ⟨h1, h2⟩ := ih h
      exact ⟨List.mem_cons_of_mem _ h1, h2⟩
    · simp only [dedupAux, if_neg hn, List.mem_cons] at h
      rcases h with h | h
      · subst h; exact ⟨List.mem_cons_self _ _, hn⟩
      · obtain ⟨h1, h2⟩ := ih h
        have h3 : a ∉ seen := fun hs => h2 (List.mem_cons_of_mem _ hs)
        exact ⟨List.mem_cons_of_mem _ h1, h3⟩

theorem nodup_dedupAux : ∀ (seen ns : List String), (dedupAux seen ns).Nodup := by
  intro seen ns
  induction ns generalizing seen with
  | nil => simp [dedupAux]
  | cons n ns ih =>
    by_cases hn : n ∈ seen
    · simpa [dedupAux, if_pos hn] using ih seen
    · simp only [dedupAux, if_neg hn]
      refine List.Nodup.cons (fun hmem => ?_) (ih (n :: seen))
      exact (mem_dedupAux hmem).2 (by simp)

theorem dedupAux_eq_self : ∀ (seen ns : List String), ns.Nodup →
    (∀ a ∈ ns, a ∉ seen) → dedupAux seen ns = ns := by
  intro seen ns
  induction ns generalizing seen with
  | nil => intro _ _; rfl
  | cons n ns ih =>
    intro hnd hdisj
    have hn : n ∉ seen := hdisj n (by simp)
    simp only [dedupAux, if_neg hn]
    refine congrArg (n :: ·) (ih (n :: seen) (List.Nodup.of_cons hnd) ?_)
    intro a ha
    have hne : a ≠ n := by
      intro h; subst h
      exact (List.nodup_cons.1 hnd).1 ha
    simp only [List.mem_cons]
    push_neg
    exact ⟨hne, hdisj a (List.mem_cons_of_mem _ ha)⟩

theorem foldl_strAppend : ∀ (l : List String) (s : String),
    l.foldl (fun a b => a ++ b) s = s ++ strConcat l := by
  intro l
  induction l with
  | nil => intro s; exact (String.append_empty s).symm
  | cons a t ih =>
    intro s
    show t.foldl _ (s ++ a) = s ++ strConcat (a :: t)
    rw [ih (s ++ a)]
    have hc : strConcat (a :: t) = a ++ strConcat t := by
      show t.foldl _ ("" ++ a) = _
      rw [String.empty_append, ih a]
    rw [hc, String.append_assoc]

theorem strConcat_cons (a : String) (t : List String) :
    strConcat (a :: t) = a ++ strConcat t := by
  show t.foldl _ ("" ++ a) = _
  rw [String.empty_append]
  exact foldl_strAppend t a

theorem strConcat_length_ones : ∀ l : List String,
    (∀ s ∈ l, s.length = 1) → (strConcat l).length = l.length := by
  intro l
  induction l with
  | nil => intro _; rfl
  | cons a t ih =>
    intro h
    rw [strConcat_cons, String.length_append, h a (by simp),
      ih (fun s hs => h s (by simp [hs]))]
    simp [Nat.add_comm]

theorem toString_digit_length (d : Nat) (hd : d < 10) : (toString d).length = 1 := by
  interval_cases d <;> rfl

theorem foldl_append_map_strConcat {γ : Type} (g : γ → String) :
    ∀ (l : List γ) (s : String),
      l.foldl (fun b i => b ++ g i) s = s ++ strConcat (l.map g) := by
  intro l
  induction l with
  | nil => intro s; exact (String.append_empty s).symm
  | cons i t ih =>
    intro s
    show t.foldl _ (s ++ g i) = _
    rw [ih (s ++ g i), List.map_cons, strConcat_cons, String.append_assoc]

/-- Characterization of the strict-maximum accumulation loop: either no
element strictly beats the initial score, and the accumulator survives
unchanged, or the result is the first element attaining the strict
maximum of the scores (ties broken toward the earliest index). -/
theorem selectFold_spec {α β : Type} (score : α → Nat) (pick : α → β) :
    ∀ (l : List α) (b : Nat) (c : β),
      (selectFold score pick l (b, c) = (b, c) ∧
        ∀ j (hj : j < l.length), score (l.get ⟨j, hj⟩) ≤ b) ∨
      (∃ i, ∃ hi : i < l.length,
        selectFold score pick l (b, c)
            = (score (l.get ⟨i, hi⟩), pick (l.get ⟨i, hi⟩)) ∧
        b < score (l.get ⟨i, hi⟩) ∧
        (∀ j (hj : j < l.length), score (l.get ⟨j, hj⟩) ≤ score (l.get ⟨i, hi⟩)) ∧
        (∀ j (hj : j < l.length), j < i →
          score (l.get ⟨j, hj⟩) < score (l.get ⟨i, hi⟩))) := by
  intro l
  induction l with
  | nil =>
    intro b c
    left
    exact ⟨rfl, fun j hj => absurd hj (Nat.not_lt_zero j)⟩
  | cons x xs ih =>
    intro b c
    by_cases hx : b < score x
    · have hstep : selectFold score pick (x :: xs) (b, c)
          = selectFold score pick xs (score x, pick x) := by
        simp only [selectFold, if_pos hx]
      rcases ih (score x) (pick x) with ⟨heq, hall⟩ | ⟨i, hi, heq, hgt, hmax, hties⟩
      · right
        refine ⟨0, Nat.succ_pos _, by rw [hstep]; exact heq, hx, ?_, ?_⟩
        · intro j hj
          cases j with
          | zero => exact Nat.le_refl _
          | succ j => exact hall j (Nat.lt_of_succ_lt_succ hj)
        · intro j hj hji
          exact absurd hji (Nat.not_lt_zero j)
      · right
        exact ⟨i + 1, Nat.succ_lt_succ hi, by rw [hstep]; exact heq,
          Nat.lt_trans hx hgt,
          fun j hj => by
            cases j with
            | zero => exact Nat.le_of_lt hgt
            | succ j => exact hmax j (Nat.lt_of_succ_lt_succ hj),
          fun j hj hji => by
            cases j with
            | zero => exact hgt
            | succ j => exact hties j (Nat.lt_of_succ_lt_succ hj) (Nat.lt_of_succ_lt_succ hji)⟩
    · have hstep : selectFold score pick (x :: xs) (b, c)
          = selectFold score pick xs (b, c) := by
        simp only [selectFold, if_neg hx]
      rcases ih b c with ⟨heq, hall⟩ | ⟨i, hi, heq, hgt, hmax, hties⟩
      · left
        refine ⟨by rw [hstep]; exact heq, ?_⟩
        intro j hj
        cases j with
        | zero => exact Nat.le_of_not_lt hx
        | succ j => exact hall j (Nat.lt_of_succ_lt_succ hj)
      · right
        exact ⟨i + 1, Nat.succ_lt_succ hi, by rw [hstep]; exact heq, hgt,
          fun j hj => by
            cases j with
            | zero => exact Nat.le_of_lt (Nat.lt_of_le_of_lt (Nat.le_of_not_lt hx) hgt)
            | succ j => exact hmax j (Nat.lt_of_succ_lt_succ hj),
          fun j hj hji => by
            cases j with
            | zero => exact Nat.lt_of_le_of_lt (Nat.le_of_not_lt hx) hgt
            | succ j => exact hties j (Nat.lt_of_succ_lt_succ hj) (Nat.lt_of_succ_lt_succ hji)⟩

/-! ### Claim theorems: C5, C7, C9, C10, C3 and the C6/C1 counterexamples -/

/-- C5 (counterexample): the claim says `RemoveNodes` filters the
removed identifiers out of the node registry, but after
`SetNodes(["jg1","jg2","jg3","jg4"])` followed by
`RemoveNodes(["jg2","jg3"])` the registry still contains `"jg2"`:
`generateCluster` appends the filtered snapshot to the old registry
instead of replacing it. -/
theorem c5_cex :
    (RemoveNodes (SetNodes (newSkeleton defaultOptions) ["jg1", "jg2", "jg3", "jg4"])
        ["jg2", "jg3"]).Nodes = ["jg1", "jg2", "jg3", "jg4", "jg1", "jg4"] ∧
    "jg2" ∈ (RemoveNodes (SetNodes (newSkeleton defaultOptions) ["jg1", "jg2", "jg3", "jg4"])
        ["jg2", "jg3"]).Nodes := by
  decide

/-- C5 (amended): `RemoveNodes` filters the removed identifiers out of
a snapshot of the registry and rebuilds the cluster table wholesale
from the filtered list (the registry itself is appended-to, not
filtered); from the 4-node/2-cluster state, `RemoveNodes(["jg2","jg3"])`
yields exactly the single cluster `[["jg1","jg4"]]`. -/
theorem c5_amended :
    (RemoveNodes (SetNodes (newSkeleton defaultOptions) ["jg1", "jg2", "jg3", "jg4"])
        ["jg2", "jg3"]).Clusters = [["jg1", "jg4"]] ∧
    (RemoveNodes (SetNodes (newSkeleton defaultOptions) ["jg1", "jg2", "jg3", "jg4"])
        ["jg2", "jg3"]).Clusters.length = 1 := by
  decide

/-- C7 (counterexample): the registry is NOT duplicate-free in every
reachable state: two successive `SetNodes(["jg1"])` calls leave
`["jg1", "jg1"]`, because each call deduplicates only its own input
batch before appending it. -/
theorem c7_cex :
    (SetNodes (SetNodes (newSkeleton defaultOptions) ["jg1"]) ["jg1"]).Nodes
        = ["jg1", "jg1"] ∧
    ¬ (SetNodes (SetNodes (newSkeleton defaultOptions) ["jg1"]) ["jg1"]).Nodes.Nodup := by
  decide

/-- C7 (amended): after a single `SetNodes` call on a fresh instance
the registry is duplicate-free (the input batch is deduplicated
first-seen); duplicates only arise across multiple calls. -/
theorem c7_amended (opts : Options) (ns : List String) :
    ((SetNodes (newSkeleton opts) ns).Nodes).Nodup := by
  have h : (SetNodes (newSkeleton opts) ns).Nodes = dedupAux [] ns := rfl
  rw [h]
  exact nodup_dedupAux [] ns

/-- C9: `FindNode` on an empty topology does not return a typed
`EmptyTopologyError`: it panics.  With zero virtual nodes the branch
numeral is empty, the resolver takes the multi-character path with
index 0 on an empty table, `0 > len(Clusters)-1 = -1` holds, and
`Clusters[0 - 0 - 1] = Clusters[-1]` is an out-of-range access.  This
holds both for a fresh instance and after `SetNodes([])`. -/
theorem c9_panics (opts : Options) (key : String) :
    FindNode (newSkeleton opts) key = GoResult.panic ∧
    FindNode (SetNodes (newSkeleton defaultOptions) []) key = GoResult.panic :=
  ⟨rfl, rfl⟩

/-- C10: the hash adapter feeds the bytes of `target` then the bytes of
`key` with no delimiter, so any two pairs whose byte concatenations
coincide collide deterministically. -/
theorem c10_hash_concat (a b c d : String)
    (h : strBytes a ++ strBytes b = strBytes c ++ strBytes d) :
    goHash a b = goHash c d := by
  unfold goHash hashWrite
  rw [← List.foldl_append, ← List.foldl_append, h]

/-- C10 witness: the spec's own example `("1", "23")` vs `("12", "3")`. -/
theorem c10_hash_concat_witness :
    (strBytes "1" ++ strBytes "23" = strBytes "12" ++ strBytes "3") ∧
    goHash "1" "23" = goHash "12" "3" :=
  ⟨by decide, c10_hash_concat "1" "23" "12" "3" (by decide)⟩

/-- C3 (failing input): with fan-out 4, cluster size 2 and four nodes
the table has 2 clusters and depth 1; the key `"0key"` selects digit 3,
the resolver folds the out-of-range value 3 to index 2 — still out of
range — and the access panics.  The claim's "always in range and never
fails" is false of the code's subtract-style folds. -/
theorem c3_cex :
    (SetNodes (newSkeleton (Options.mk 4 2 2)) ["n1", "n2", "n3", "n4"]).Clusters
        = [["n1", "n2"], ["n3", "n4"]] ∧
    buildBranch (SetNodes (newSkeleton (Options.mk 4 2 2)) ["n1", "n2", "n3", "n4"]) "0key"
        = "3" ∧
    FindNode (SetNodes (newSkeleton (Options.mk 4 2 2)) ["n1", "n2", "n3", "n4"]) "0key"
        = GoResult.panic := by
  decide

/-- C6 (counterexample): a second `SetNodes` call appends clusters but
recomputes the depth only from its own batch, breaking
`fanOut ^ depth ≥ cluster count`: after `SetNodes` of four nodes twice,
the table has 3 clusters while the depth is 0 and `3 ^ 0 = 1 < 3`. -/
theorem c6_cex :
    (SetNodes (SetNodes (newSkeleton defaultOptions) ["a", "b", "c", "d"])
        ["e", "f", "g", "h"]).Clusters.length = 3 ∧
    (SetNodes (SetNodes (newSkeleton defaultOptions) ["a", "b", "c", "d"])
        ["e", "f", "g", "h"]).VirtualNodes = 0 ∧
    ¬ ((SetNodes (SetNodes (newSkeleton defaultOptions) ["a", "b", "c", "d"])
        ["e", "f", "g", "h"]).Clusters.length ≤
      defaultOptions.fanOut ^
        (SetNodes (SetNodes (newSkeleton defaultOptions) ["a", "b", "c", "d"])
          ["e", "f", "g", "h"]).VirtualNodes) := by
  decide

/-- C1 (counterexample): `SetNodes` does not replace the cluster table
with a partition of the full registry: a second call appends its own
batch's clusters to the existing ones.  After `SetNodes(["a","b"])`
then `SetNodes(["c","d"])` the registry is `[a,b,c,d]` but the table is
`[["a","b","c"],["d"]]`, not the claimed partition
`[["a","b"],["c","d"]]`. -/
theorem c1_cex :
    (SetNodes (SetNodes (newSkeleton defaultOptions) ["a", "b"]) ["c", "d"]).Nodes
        = ["a", "b", "c", "d"] ∧
    (SetNodes (SetNodes (newSkeleton defaultOptions) ["a", "b"]) ["c", "d"]).Clusters
        = [["a", "b", "c"], ["d"]] ∧
    (SetNodes (SetNodes (newSkeleton defaultOptions) ["a", "b"]) ["c", "d"]).Clusters
        ≠ [["a", "b"], ["c", "d"]] := by
  decide

/-- On a non-empty table, the empty branch numeral takes the
multi-character resolver path with value 0 and resolves to cluster 0. -/
theorem select_empty_branch (sr : SR) (hne : sr.Clusters ≠ []) :
    selectClusterNodes sr "" = GoResult.ok (sr.Clusters.getD 0 []) := by
  have hlen : 0 < sr.Clusters.length := List.length_pos.2 hne
  have h0 : selectClusterNodes sr "" = selectClusterNodesAux sr [] := rfl
  rw [h0]
  have hbv : branchValue sr.options.fanOut [] = 0 := rfl
  show (if ((sr.Clusters.length : Int) - 1 < ((branchValue sr.options.fanOut [] : Nat) : Int))
      then goIndex sr.Clusters (((branchValue sr.options.fanOut [] : Nat) : Int)
          - (sr.Clusters.length : Int) - 1)
      else goIndex sr.Clusters ((branchValue sr.options.fanOut [] : Nat) : Int))
    = GoResult.ok (sr.Clusters.getD 0 [])
  rw [hbv]
  have hcond : ¬ ((sr.Clusters.length : Int) - 1 < ((0 : Nat) : Int)) := by
    simp only [Nat.cast_zero]
    omega
  rw [if_neg hcond]
  have hidx : (0 ≤ ((0 : Nat) : Int)) ∧ ((0 : Nat) : Int) < (sr.Clusters.length : Int) := by
    simp only [Nat.cast_zero]
    omega
  simp only [goIndex, if_pos hidx]
  rfl

/-- C4: intra-cluster HRW.  On the empty member list the Go function
returns the empty-string placeholder (the `NodeNotFound` signal) and
does not crash; on a list containing a member with a positive score it
returns the first member attaining the strict maximum of
`hash(member, key)` (ties broken toward first-seen order). -/
theorem c4_hrw (key : String) (nodes : List String) :
    (nodes = [] → findHighestRandomWeight key nodes = "") ∧
    ((∃ n ∈ nodes, 0 < goHash n key) →
      ∃ k, ∃ hk : k < nodes.length,
        findHighestRandomWeight key nodes = nodes.get ⟨k, hk⟩ ∧
        (∀ j (hj : j < nodes.length),
          goHash (nodes.get ⟨j, hj⟩) key ≤ goHash (nodes.get ⟨k, hk⟩) key) ∧
        (∀ j (hj : j < nodes.length), j < k →
          goHash (nodes.get ⟨j, hj⟩) key < goHash (nodes.get ⟨k, hk⟩) key)) := by
  constructor
  · intro h
    subst h
    rfl
  · intro hpos
    obtain ⟨n, hn, hnpos⟩ := hpos
    rcases selectFold_spec (fun node => goHash node key) (fun node => node) nodes 0 ""
      with ⟨heq, hall⟩ | ⟨i, hi, heq, hgt, hmax, hties⟩
    · obtain ⟨jf, hjf⟩ := List.mem_iff_get.1 hn
      have hle := hall jf.1 jf.2
      rw [show nodes.get ⟨jf.1, jf.2⟩ = nodes.get jf from rfl, hjf] at hle
      omega
    · refine ⟨i, hi, ?_, hmax, hties⟩
      show (selectFold (fun node => goHash node key) (fun node => node) nodes (0, "")).2 = _
      rw [heq]

/-- C4 witness: a concrete two-member cluster and key. -/
theorem c4_hrw_witness :
    (∃ n ∈ (["c", "d"] : List String), 0 < goHash n "51key") ∧
    (∃ k, ∃ hk : k < (["c", "d"] : List String).length,
      findHighestRandomWeight "51key" ["c", "d"] = (["c", "d"] : List String).get ⟨k, hk⟩ ∧
      (∀ j (hj : j < (["c", "d"] : List String).length),
        goHash ((["c", "d"] : List String).get ⟨j, hj⟩) "51key"
          ≤ goHash ((["c", "d"] : List String).get ⟨k, hk⟩) "51key") ∧
      (∀ j (hj : j < (["c", "d"] : List String).length), j < k →
        goHash ((["c", "d"] : List String).get ⟨j, hj⟩) "51key"
          < goHash ((["c", "d"] : List String).get ⟨k, hk⟩) "51key")) :=
  ⟨by decide, (c4_hrw "51key" ["c", "d"]).2 (by decide)⟩

/-- C2 (counterexample): the numeral is not always a base-fan-out
string of exactly `VirtualNodes` digits.  With fan-out 11 and cluster
size 1, `SetNodes(["n1","n2"])` yields 2 clusters at depth 1, and for
key `"BB1"` level 0's argmax digit is 10, which `strconv.Itoa` renders
as the two characters `"10"`: the numeral has length 2, not depth 1. -/
theorem c2_cex :
    (SetNodes (newSkeleton (Options.mk 11 1 1)) ["n1", "n2"]).Clusters
        = [["n1"], ["n2"]] ∧
    (SetNodes (newSkeleton (Options.mk 11 1 1)) ["n1", "n2"]).VirtualNodes = 1 ∧
    buildBranch (SetNodes (newSkeleton (Options.mk 11 1 1)) ["n1", "n2"]) "BB1" = "10" ∧
    (buildBranch (SetNodes (newSkeleton (Options.mk 11 1 1)) ["n1", "n2"]) "BB1").length
        = 2 := by
  decide

/-- C2 (amended): the branch numeral is the in-order concatenation of
the per-level winning digit strings; at each level the winner is the
digit with the strictly greatest `hash(level-label ++ digit-label,
key)`, ties resolved toward the lowest digit (the comparison is strict
and the scan ascends), provided some digit at the level scores above
the zero-initialised accumulator; for fan-out ≤ 10 each winning digit
renders as one character and the numeral has exactly `VirtualNodes`
digits (for fan-out ≥ 11 a winning digit ≥ 10 renders as two
characters and the numeral is longer — see the counterexample); with
depth 0 the numeral is empty and resolves to cluster 0. -/
theorem c2_branch (sr : SR) (key : String)
    (hpos : ∀ i, i < sr.VirtualNodes →
      ∃ j, j < sr.options.fanOut ∧ 0 < goHash (toString i ++ toString j) key) :
    buildBranch sr key
        = strConcat ((List.range sr.VirtualNodes).map
            (fun i => (levelFold sr.options.fanOut i key).2)) ∧
    (∀ i, i < sr.VirtualNodes →
      ∃ d, d < sr.options.fanOut ∧
        (levelFold sr.options.fanOut i key).2 = toString d ∧
        (∀ j, j < sr.options.fanOut →
          goHash (toString i ++ toString j) key ≤ goHash (toString i ++ toString d) key) ∧
        (∀ j, j < d →
          goHash (toString i ++ toString j) key < goHash (toString i ++ toString d) key)) ∧
    (sr.options.fanOut ≤ 10 → (buildBranch sr key).length = sr.VirtualNodes) ∧
    (sr.VirtualNodes = 0 → buildBranch sr key = "" ∧
      (sr.Clusters ≠ [] →
        selectClusterNodes sr (buildBranch sr key) = GoResult.ok (sr.Clusters.getD 0 []))) := by
  have hb : buildBranch sr key
      = strConcat ((List.range sr.VirtualNodes).map
          (fun i => (levelFold sr.options.fanOut i key).2)) := by
    show (List.range sr.VirtualNodes).foldl
        (fun b i => b ++ (levelFold sr.options.fanOut i key).2) "" = _
    rw [foldl_append_map_strConcat (fun i => (levelFold sr.options.fanOut i key).2)
      (List.range sr.VirtualNodes) "", String.empty_append]
  have hlevel : ∀ i, i < sr.VirtualNodes →
      ∃ d, d < sr.options.fanOut ∧
        (levelFold sr.options.fanOut i key).2 = toString d ∧
        (∀ j, j < sr.options.fanOut →
          goHash (toString i ++ toString j) key ≤ goHash (toString i ++ toString d) key) ∧
        (∀ j, j < d →
          goHash (toString i ++ toString j) key < goHash (toString i ++ toString d) key) := by
    intro i hi
    obtain ⟨j0, hj0, hj0pos⟩ := hpos i hi
    rcases selectFold_spec (fun j => goHash (toString i ++ toString j) key)
        (fun j => toString j) (List.range sr.options.fanOut) 0 ""
      with ⟨heq, hall⟩ | ⟨d, hd, heq, hgt, hmax, hties⟩
    · exfalso
      have hj0' : j0 < (List.range sr.options.fanOut).length := by
        rw [List.length_range]; exact hj0
      have := hall j0 hj0'
      rw [List.get_range] at this
      omega
    · have hd' : (List.range sr.options.fanOut).get ⟨d, hd⟩ = d := List.get_range d hd
      refine ⟨d, by rw [← List.length_range sr.options.fanOut]; exact hd, ?_, ?_, ?_⟩
      · show (selectFold (fun j => goHash (toString i ++ toString j) key)
            (fun j => toString j) (List.range sr.options.fanOut) (0, "")).2 = _
        rw [heq, hd']
      · intro j hj
        have hj' : j < (List.range sr.options.fanOut).length := by
          rw [List.length_range]; exact hj
        have := hmax j hj'
        rw [List.get_range, hd'] at this
        exact this
      · intro j hjd
        have hj' : j < (List.range sr.options.fanOut).length := by
          rw [List.length_range]
          exact Nat.lt_of_lt_of_le hjd (Nat.le_of_lt (by
            rw [← List.length_range sr.options.fanOut]; exact hd))
        have := hties j hj' hjd
        rw [List.get_range, hd'] at this
        exact this
  refine ⟨hb, hlevel, ?_, ?_⟩
  · intro h10
    rw [hb, strConcat_length_ones, List.length_map, List.length_range]
    intro s hs
    obtain ⟨i, hi, hsi⟩ := List.mem_map.1 hs
    obtain ⟨d, hdf, hds, _, _⟩ := hlevel i (List.mem_range.1 hi)
    rw [← hsi, hds]
    exact toString_digit_length d (Nat.lt_of_lt_of_le hdf h10)
  · intro hv
    have hb0 : buildBranch sr key = "" := by
      show (List.range sr.VirtualNodes).foldl
          (fun b i => b ++ (levelFold sr.options.fanOut i key).2) "" = ""
      rw [hv]
      rfl
    exact ⟨hb0, fun hne => by rw [hb0]; exact select_empty_branch sr hne⟩

/-- C2 witness: the default 4-node topology (depth 1) and a concrete
key with positive per-level scores. -/
theorem c2_branch_witness :
    (∀ i, i < (SetNodes (newSkeleton defaultOptions) ["a", "b", "c", "d"]).VirtualNodes →
      ∃ j, j < (SetNodes (newSkeleton defaultOptions) ["a", "b", "c", "d"]).options.fanOut ∧
        0 < goHash (toString i ++ toString j) "zebra") ∧
    (buildBranch (SetNodes (newSkeleton defaultOptions) ["a", "b", "c", "d"]) "zebra").length
      = (SetNodes (newSkeleton defaultOptions) ["a", "b", "c", "d"]).VirtualNodes :=
  ⟨by decide,
    (c2_branch (SetNodes (newSkeleton defaultOptions) ["a", "b", "c", "d"]) "zebra"
      (by decide)).2.2.1 (by decide)⟩

theorem ceilLogAux_le_pow (b n : Nat) : ∀ (fuel k : Nat),
    n ≤ b ^ (k + fuel) → n ≤ b ^ ceilLogAux b n fuel k := by
  intro fuel
  induction fuel with
  | zero => intro k h; simpa using h
  | succ fuel ih =>
    intro k h
    by_cases hk : n ≤ b ^ k
    · simpa [ceilLogAux, hk] using hk
    · have hstep : ceilLogAux b n (fuel + 1) k = ceilLogAux b n fuel (k + 1) := by
        simp [ceilLogAux, hk]
      rw [hstep]
      refine ih (k + 1) ?_
      have harith : k + 1 + fuel = k + (fuel + 1) := by omega
      rw [harith]
      exact h

theorem le_pow_countVirtualNodes {f : Nat} (hf : 2 ≤ f) (n : Nat) :
    n ≤ f ^ countVirtualNodes n f := by
  unfold countVirtualNodes
  by_cases h : n ≤ 1 ∨ f ≤ 1
  · rw [if_pos h]
    rcases h with h | h
    · simpa using h
    · omega
  · rw [if_neg h]
    apply ceilLogAux_le_pow
    have h1 : n ≤ 2 ^ n := Nat.le_of_lt (Nat.lt_two_pow n)
    have h2 : 2 ^ n ≤ f ^ n := Nat.pow_le_pow_left hf n
    simpa using Nat.le_trans h1 h2

theorem length_fillNodes (cs : Nat) : ∀ (ns : List String) (cls : List (List String)) (idx : Nat),
    (fillNodes cs cls idx ns).length = cls.length := by
  intro ns
  induction ns with
  | nil => intro cls idx; rfl
  | cons n ns ih =>
    intro cls idx
    simp only [fillNodes]
    rw [ih, List.length_set]

theorem length_roundRobinInto (k : Nat) :
    ∀ (ns : List String) (cls : List (List String)) (idx : Nat),
      (roundRobinInto k cls idx ns).length = cls.length := by
  intro ns
  induction ns with
  | nil => intro cls idx; rfl
  | cons n ns ih =>
    intro cls idx
    simp only [roundRobinInto]
    rw [ih, List.length_set]

theorem buildClusters_len (cs minSize rawLen : Nat) (nn : List String) :
    (buildClusters cs minSize [] rawLen nn).1.length
      = (buildClusters cs minSize [] rawLen nn).2 := by
  have hfill : (fillNodes cs ([] ++ List.replicate ((rawLen + cs - 1) / cs) []) 0 nn).length
      = (rawLen + cs - 1) / cs := by
    rw [length_fillNodes]
    simp
  simp only [buildClusters]
  split
  · split
    · simp only
      rw [length_roundRobinInto, List.length_dropLast, hfill]
    · simp only
      exact hfill
  · simp only
    exact hfill

theorem generateCluster_depth (sr : SR) (ns : List String) (hcl : sr.Clusters = [])
    (hf : 2 ≤ sr.options.fanOut) :
    (generateCluster sr ns).Clusters.length
      ≤ sr.options.fanOut ^ (generateCluster sr ns).VirtualNodes := by
  have h1 : (generateCluster sr ns).Clusters
      = (buildClusters sr.options.clusterSize sr.options.minClusterSize sr.Clusters
          ns.length (dedupAux [] ns)).1 := rfl
  have h2 : (generateCluster sr ns).VirtualNodes
      = countVirtualNodes (buildClusters sr.options.clusterSize sr.options.minClusterSize
          sr.Clusters ns.length (dedupAux [] ns)).2 sr.options.fanOut := rfl
  rw [h1, h2, hcl, buildClusters_len]
  exact le_pow_countVirtualNodes hf _

/-- C6 (amended): the depth invariant
`fanOut ^ VirtualNodes ≥ cluster count` holds after every `RemoveNodes`
call from any state, and after a `SetNodes` call whenever the cluster
table was empty beforehand (in particular the first call on a fresh
instance); a `SetNodes` on a non-empty table appends clusters while
recomputing the depth only from its own batch, which breaks the
invariant (see the counterexample). -/
theorem c6_amended (opts : Options) (hf : 2 ≤ opts.fanOut) :
    (∀ (sr : SR) (ns : List String), sr.options = opts → sr.Clusters = [] →
      (SetNodes sr ns).Clusters.length ≤ opts.fanOut ^ (SetNodes sr ns).VirtualNodes) ∧
    (∀ (sr : SR) (rs : List String), sr.options = opts →
      (RemoveNodes sr rs).Clusters.length
        ≤ opts.fanOut ^ (RemoveNodes sr rs).VirtualNodes) := by
  constructor
  · intro sr ns ho hcl
    rw [← ho]
    exact generateCluster_depth sr ns hcl (by rw [ho]; exact hf)
  · intro sr rs ho
    rw [← ho]
    exact generateCluster_depth { sr with Clusters := [] }
      (sr.Nodes.filter (fun n => !rs.contains n)) rfl
      (by show 2 ≤ sr.options.fanOut; rw [ho]; exact hf)

/-- C6 witness: the invariant at a concrete rebuild. -/
theorem c6_amended_witness :
    2 ≤ defaultOptions.fanOut ∧
    (SetNodes (newSkeleton defaultOptions) ["a", "b", "c"]).Clusters.length
      ≤ defaultOptions.fanOut
          ^ (SetNodes (newSkeleton defaultOptions) ["a", "b", "c"]).VirtualNodes :=
  ⟨by decide,
    (c6_amended defaultOptions (by decide)).1 (newSkeleton defaultOptions)
      ["a", "b", "c"] rfl rfl⟩

/-- `FindNode` reads only the options, the cluster table and the depth
of the state, never the registry. -/
theorem FindNode_congr (s t : SR) (key : String) (ho : s.options = t.options)
    (hc : s.Clusters = t.Clusters) (hv : s.VirtualNodes = t.VirtualNodes) :
    FindNode s key = FindNode t key := by
  cases s
  cases t
  simp only at ho hc hv
  subst ho
  subst hc
  subst hv
  rfl

/-- C8 (counterexample): with defaults and `SetNodes(["a","b","c","d"])`
the key `"51key"` selects cluster 1 = `["c","d"]`, which does not
contain the removed node `"a"`; yet after `RemoveNodes(["a"])` the full
repartition puts the key's cluster at `["b","c","d"]` and HRW now picks
`"b"` instead of `"c"`. -/
theorem c8_cex :
    selectClusterNodes (SetNodes (newSkeleton defaultOptions) ["a", "b", "c", "d"])
        (buildBranch (SetNodes (newSkeleton defaultOptions) ["a", "b", "c", "d"]) "51key")
      = GoResult.ok ["c", "d"] ∧
    ("a" ∉ (["c", "d"] : List String)) ∧
    FindNode (SetNodes (newSkeleton defaultOptions) ["a", "b", "c", "d"]) "51key"
      = GoResult.ok "c" ∧
    FindNode (RemoveNodes (SetNodes (newSkeleton defaultOptions) ["a", "b", "c", "d"]) ["a"])
        "51key"
      = GoResult.ok "b" := by
  decide

/-- C8 (amended): a removal that touches no identifier of the registry
leaves `FindNode` unchanged on every key (the pre-state being built by
a single `SetNodes` of a duplicate-free list): the rebuild then
repartitions exactly the same node list.  Removing present nodes
repartitions positionally and can change keys whose selected cluster
avoided every removed node, as the counterexample shows. -/
theorem c8_amended (opts : Options) (ns rs : List String) (hnd : ns.Nodup)
    (hdisj : ∀ r ∈ rs, r ∉ ns) (key : String) :
    FindNode (RemoveNodes (SetNodes (newSkeleton opts) ns) rs) key
      = FindNode (SetNodes (newSkeleton opts) ns) key := by
  have hnodes : (SetNodes (newSkeleton opts) ns).Nodes = ns := by
    show [] ++ dedupAux [] ns = ns
    rw [List.nil_append]
    exact dedupAux_eq_self [] ns hnd (by simp)
  have hfilter : (SetNodes (newSkeleton opts) ns).Nodes.filter (fun n => !rs.contains n)
      = ns := by
    rw [hnodes]
    refine List.filter_eq_self.2 ?_
    intro a ha
    have : a ∉ rs := fun har => hdisj a har ha
    simpa using this
  have hrm : RemoveNodes (SetNodes (newSkeleton opts) ns) rs
      = generateCluster { SetNodes (newSkeleton opts) ns with Clusters := [] } ns := by
    show generateCluster _ ((SetNodes (newSkeleton opts) ns).Nodes.filter
      (fun n => !rs.contains n)) = _
    rw [hfilter]
  rw [hrm]
  refine FindNode_congr _ _ key rfl rfl rfl

/-- C8 witness: removing an absent identifier is invisible to lookups. -/
theorem c8_amended_witness :
    ((["a", "b", "c", "d"] : List String).Nodup ∧
      (∀ r ∈ (["x"] : List String), r ∉ (["a", "b", "c", "d"] : List String))) ∧
    FindNode (RemoveNodes (SetNodes (newSkeleton defaultOptions) ["a", "b", "c", "d"]) ["x"])
        "zebra"
      = FindNode (SetNodes (newSkeleton defaultOptions) ["a", "b", "c", "d"]) "zebra" :=
  ⟨⟨by decide, by decide⟩,
    c8_amended defaultOptions ["a", "b", "c", "d"] ["x"] (by decide) (by decide) "zebra"⟩

theorem take_set_self {α : Type} : ∀ (cls : List α) (idx : Nat) (c : α),
    (cls.set idx c).take idx = cls.take idx := by
  intro cls
  induction cls with
  | nil => intro idx c; rfl
  | cons x t ih =>
    intro idx c
    cases idx with
    | zero => rfl
    | succ idx =>
      show (x :: t.set idx c).take (idx + 1) = (x :: t).take (idx + 1)
      rw [List.take_succ_cons, List.take_succ_cons, ih]

theorem drop_succ_set {α : Type} : ∀ (cls : List α) (idx : Nat) (c : α),
    (cls.set idx c).drop (idx + 1) = cls.drop (idx + 1) := by
  intro cls
  induction cls with
  | nil => intro idx c; rfl
  | cons x t ih =>
    intro idx c
    cases idx with
    | zero => rfl
    | succ idx =>
      show (x :: t.set idx c).drop (idx + 2) = (x :: t).drop (idx + 2)
      rw [List.drop_succ_cons, List.drop_succ_cons, ih]

theorem take_succ_set {α : Type} : ∀ (cls : List α) (idx : Nat) (c : α),
    idx < cls.length → (cls.set idx c).take (idx + 1) = cls.take idx ++ [c] := by
  intro cls
  induction cls with
  | nil => intro idx c h; exact absurd h (Nat.not_lt_zero idx)
  | cons x t ih =>
    intro idx c h
    cases idx with
    | zero => rfl
    | succ idx =>
      show (x :: t.set idx c).take (idx + 2) = (x :: t.take idx) ++ [c]
      rw [List.take_succ_cons, ih idx c (Nat.lt_of_succ_lt_succ h)]
      rfl

theorem drop_set_self {α : Type} : ∀ (cls : List α) (idx : Nat) (c : α),
    idx < cls.length → (cls.set idx c).drop idx = c :: cls.drop (idx + 1) := by
  intro cls
  induction cls with
  | nil => intro idx c h; exact absurd h (Nat.not_lt_zero idx)
  | cons x t ih =>
    intro idx c h
    cases idx with
    | zero => rfl
    | succ idx =>
      have h1 : (x :: t).set (idx + 1) c = x :: t.set idx c := rfl
      rw [h1, List.drop_succ_cons, List.drop_succ_cons]
      exact ih idx c (Nat.lt_of_succ_lt_succ h)

theorem fillAux_nil_left (cs : Nat) : ∀ ms : List String, fillAux cs [] ms = [] := by
  intro ms
  cases ms <;> rfl

theorem fillAux_nil_right (cs : Nat) : ∀ cls : List (List String), fillAux cs cls [] = cls := by
  intro cls
  cases cls <;> rfl

/-- The global fill loop viewed locally: the clusters before the write
index are untouched, and the rest is filled chunkwise. -/
theorem fillNodes_eq_aux (cs : Nat) : ∀ (ns : List String) (cls : List (List String)) (idx : Nat),
    fillNodes cs cls idx ns = cls.take idx ++ fillAux cs (cls.drop idx) ns := by
  intro ns
  induction ns with
  | nil =>
    intro cls idx
    rw [fillAux_nil_right]
    exact (List.take_append_drop idx cls).symm
  | cons n ns ih =>
    intro cls idx
    by_cases hlt : idx < cls.length
    · have hget : cls.getD idx [] = cls.get ⟨idx, hlt⟩ := List.getD_eq_get cls [] hlt
      have hdrop : cls.drop idx = cls.get ⟨idx, hlt⟩ :: cls.drop (idx + 1) :=
        List.drop_eq_get_cons hlt
      show fillNodes cs (cls.set idx (cls.getD idx [] ++ [n]))
          (if cs ≤ (cls.getD idx [] ++ [n]).length then idx + 1 else idx) ns = _
      rw [hget, hdrop]
      by_cases hfull : cs ≤ (cls.get ⟨idx, hlt⟩ ++ [n]).length
      · rw [if_pos hfull, ih,
          take_succ_set cls idx (cls.get ⟨idx, hlt⟩ ++ [n]) hlt, drop_succ_set]
        have hfa : fillAux cs (cls.get ⟨idx, hlt⟩ :: cls.drop (idx + 1)) (n :: ns)
            = (cls.get ⟨idx, hlt⟩ ++ [n]) :: fillAux cs (cls.drop (idx + 1)) ns := by
          simp only [fillAux, if_pos hfull]
        rw [hfa, List.append_assoc]
        rfl
      · rw [if_neg hfull, ih, take_set_self,
          drop_set_self cls idx (cls.get ⟨idx, hlt⟩ ++ [n]) hlt]
        have hfa : fillAux cs (cls.get ⟨idx, hlt⟩ :: cls.drop (idx + 1)) (n :: ns)
            = fillAux cs ((cls.get ⟨idx, hlt⟩ ++ [n]) :: cls.drop (idx + 1)) ns := by
          simp only [fillAux, if_neg hfull]
        rw [hfa]
    · have hge : cls.length ≤ idx := Nat.le_of_not_lt hlt
      have hset : cls.set idx (cls.getD idx [] ++ [n]) = cls := List.set_eq_of_length_le hge
      show fillNodes cs (cls.set idx (cls.getD idx [] ++ [n]))
          (if cs ≤ (cls.getD idx [] ++ [n]).length then idx + 1 else idx) ns = _
      rw [hset, List.take_of_length_le hge, List.drop_eq_nil_of_le hge, fillAux_nil_left,
        List.append_nil]
      split
      · rw [ih, List.take_of_length_le (by omega), List.drop_eq_nil_of_le (by omega),
          fillAux_nil_left, List.append_nil]
      · rw [ih, List.take_of_length_le hge, List.drop_eq_nil_of_le hge,
          fillAux_nil_left, List.append_nil]

/-- Filling a partially-filled head cluster consumes exactly the nodes
needed to complete it (or everything, if the input is shorter) before
moving on. -/
theorem fillAux_chunk (cs : Nat) (_hcs : 1 ≤ cs) :
    ∀ (ns : List String) (c : List String) (rest : List (List String)), c.length < cs →
      fillAux cs (c :: rest) ns
        = (c ++ ns.take (cs - c.length)) :: fillAux cs rest (ns.drop (cs - c.length)) := by
  intro ns
  induction ns with
  | nil =>
    intro c rest hc
    rw [List.take_nil, List.drop_nil, List.append_nil, fillAux_nil_right, fillAux_nil_right]
  | cons n ns ih =>
    intro c rest hc
    have hlen : (c ++ [n]).length = c.length + 1 := by simp
    by_cases hfull : cs ≤ (c ++ [n]).length
    · have hstep : fillAux cs (c :: rest) (n :: ns) = (c ++ [n]) :: fillAux cs rest ns := by
        simp only [fillAux, if_pos hfull]
      have hcs1 : cs - c.length = 1 := by omega
      rw [hstep, hcs1, List.take_succ_cons, List.take_zero, List.drop_succ_cons,
        List.drop_zero]
    · have hstep : fillAux cs (c :: rest) (n :: ns) = fillAux cs ((c ++ [n]) :: rest) ns := by
        simp only [fillAux, if_neg hfull]
      have hc' : (c ++ [n]).length < cs := by omega
      have hcsub : cs - c.length = (cs - (c ++ [n]).length) + 1 := by omega
      rw [hstep, ih (c ++ [n]) rest hc', hcsub, List.take_succ_cons, List.drop_succ_cons,
        List.append_assoc]
      rfl

/-- Filling the exact number of fresh empty clusters reproduces the
contiguous chunking of the node list. -/
theorem fillAux_replicate_fuel (cs : Nat) (hcs : 1 ≤ cs) :
    ∀ (fuel : Nat) (ns : List String), ns.length ≤ fuel →
      fillAux cs (List.replicate ((chunksOf cs ns).length) []) ns = chunksOf cs ns := by
  intro fuel
  induction fuel with
  | zero =>
    intro ns h
    have hnil : ns = [] := List.eq_nil_of_length_eq_zero (by omega)
    subst hnil
    simp [chunksOf, fillAux]
  | succ fuel ih =>
    intro ns h
    match ns with
    | [] => simp [chunksOf, fillAux]
    | n :: ns' =>
      rw [chunksOf, List.length_cons, List.replicate_succ,
        fillAux_chunk cs hcs (n :: ns') [] _ (by simpa using hcs), List.nil_append]
      simp only [List.length_nil]
      have hcseq : cs = (cs - 1) + 1 := by omega
      have htake : (n :: ns').take (cs - 0) = n :: ns'.take (cs - 1) := by
        conv_lhs => rw [Nat.sub_zero, hcseq]
        rw [List.take_succ_cons]
      have hdrop : (n :: ns').drop (cs - 0) = ns'.drop (cs - 1) := by
        conv_lhs => rw [Nat.sub_zero, hcseq]
        rw [List.drop_succ_cons]
      rw [htake, hdrop]
      have hfuel : (ns'.drop (cs - 1)).length ≤ fuel := by
        rw [List.length_drop]
        simp only [List.length_cons] at h
        omega
      rw [ih (ns'.drop (cs - 1)) hfuel]

/-- The chunk count of the contiguous chunking is `ceil(n / cs)`. -/
theorem length_chunksOf (cs : Nat) (hcs : 1 ≤ cs) :
    ∀ (fuel : Nat) (ns : List String), ns.length ≤ fuel →
      (chunksOf cs ns).length = (ns.length + cs - 1) / cs := by
  intro fuel
  induction fuel with
  | zero =>
    intro ns h
    have hnil : ns = [] := List.eq_nil_of_length_eq_zero (by omega)
    subst hnil
    simp only [chunksOf, List.length_nil]
    exact (Nat.div_eq_of_lt (by omega)).symm
  | succ fuel ih =>
    intro ns h
    match ns with
    | [] =>
      simp only [chunksOf, List.length_nil]
      exact (Nat.div_eq_of_lt (by omega)).symm
    | n :: ns' =>
      have hfuel : (ns'.drop (cs - 1)).length ≤ fuel := by
        rw [List.length_drop]
        simp only [List.length_cons] at h
        omega
      rw [chunksOf, List.length_cons, ih (ns'.drop (cs - 1)) hfuel, List.length_drop]
      simp only [List.length_cons]
      have h3 : ns'.length + 1 + cs - 1 = ns'.length + cs := by omega
      rw [h3, Nat.add_div_right ns'.length (by omega)]
      by_cases hm : ns'.length ≤ cs - 1
      · have h1 : ns'.length - (cs - 1) = 0 := by omega
        rw [h1]
        have h2 : (0 + cs - 1) / cs = 0 := Nat.div_eq_of_lt (by omega)
        have h4 : ns'.length / cs = 0 := Nat.div_eq_of_lt (by omega)
        rw [h2, h4]
      · have h1 : ns'.length - (cs - 1) + cs - 1 = ns'.length := by omega
        rw [h1]

/-- On an empty table, with the raw length equal to the (deduplicated)
node-list length, the Go partitioner computes exactly the spec's
partition. -/
theorem buildClusters_empty_spec (cs minSize : Nat) (hcs : 1 ≤ cs) (nn : List String) :
    (buildClusters cs minSize [] nn.length nn).1 = specPartition cs minSize nn := by
  have hA : (nn.length + cs - 1) / cs = (chunksOf cs nn).length :=
    (length_chunksOf cs hcs nn.length nn (Nat.le_refl _)).symm
  have hfill : fillNodes cs ([] ++ List.replicate ((nn.length + cs - 1) / cs) []) 0 nn
      = chunksOf cs nn := by
    rw [List.nil_append, hA, fillNodes_eq_aux, List.take_zero, List.drop_zero,
      List.nil_append]
    exact fillAux_replicate_fuel cs hcs nn.length nn (Nat.le_refl _)
  simp only [buildClusters, specPartition]
  rw [hfill, hA]
  by_cases h1 : 1 < (chunksOf cs nn).length
  · by_cases h2 : ((chunksOf cs nn).getLast?.getD []).length < minSize
    · rw [if_pos h1, if_pos h2, if_pos (And.intro h1 h2)]
    · rw [if_pos h1, if_neg h2, if_neg (fun hand => h2 hand.2)]
  · rw [if_neg h1, if_neg (fun hand => h1 hand.1)]

/-- C1 (amended): starting from the empty state, `SetNodes` of a
duplicate-free list (with cluster size ≥ 1) replaces the cluster table
with exactly the spec's partition — contiguous chunks of the cluster
size in registry order, `ceil(n / cs)` chunks, with an undersized final
chunk (when there is more than one) discarded and redistributed
round-robin from chunk 0 — and the registry becomes the input list.
On a non-empty instance `SetNodes` instead appends its batch's clusters
(see the counterexample), and with a duplicate-carrying input the chunk
count is computed from the raw length, which can leave an extra
cluster. -/
theorem c1_amended (opts : Options) (ns : List String) (hcs : 1 ≤ opts.clusterSize)
    (hnd : ns.Nodup) :
    (SetNodes (newSkeleton opts) ns).Clusters
        = specPartition opts.clusterSize opts.minClusterSize ns ∧
    (SetNodes (newSkeleton opts) ns).Nodes = ns := by
  have hd : dedupAux [] ns = ns := dedupAux_eq_self [] ns hnd (by simp)
  constructor
  · have h1 : (SetNodes (newSkeleton opts) ns).Clusters
        = (buildClusters opts.clusterSize opts.minClusterSize [] ns.length
            (dedupAux [] ns)).1 := rfl
    rw [h1, hd]
    exact buildClusters_empty_spec opts.clusterSize opts.minClusterSize hcs ns
  · show [] ++ dedupAux [] ns = ns
    rw [List.nil_append, hd]

/-- C1 witness: three nodes with cluster size 2 exercise the
undersized-final-chunk redistribution. -/
theorem c1_amended_witness :
    (1 ≤ defaultOptions.clusterSize ∧ (["jg1", "jg2", "jg3"] : List String).Nodup) ∧
    ((SetNodes (newSkeleton defaultOptions) ["jg1", "jg2", "jg3"]).Clusters
        = specPartition defaultOptions.clusterSize defaultOptions.minClusterSize
            ["jg1", "jg2", "jg3"] ∧
      (SetNodes (newSkeleton defaultOptions) ["jg1", "jg2", "jg3"]).Nodes
        = ["jg1", "jg2", "jg3"]) :=
  ⟨⟨by decide, by decide⟩,
    c1_amended defaultOptions ["jg1", "jg2", "jg3"] (by decide) (by decide)⟩

end Rendezvous
